import Mathlib

set_option maxRecDepth 100000

set_option maxHeartbeats 4000000

deriving instance DecidableEq for Except

/-
Shallow embedding of src/Tools/AppleEfiSignTool/AppleEfiBinary.c.

An image buffer is a List Nat of byte values; offsets into the buffer replace
the raw pointers of the C source.  Multi-byte on-disk integers are read
little-endian.  Machine arithmetic is modelled on Nat with explicit reductions
modulo 2 ^ 32 or 2 ^ 64 at the points where the C types truncate, and pointer
differences that can be negative are taken in Int before the conversion to the
unsigned width.  The SHA-256 and RSA primitives are external collaborators of
the program; they are modelled as oracle parameters, and the hash functions
return the exact transcript of (start, length) ranges that the code feeds to
Sha256Update, which is what the claims about hashing are about.

Structure layout constants come from the EDK2 PE/COFF definitions that the
source includes: EFI_IMAGE_DOS_HEADER is 64 bytes with e_magic at offset 0 and
e_lfanew at offset 60; EFI_IMAGE_OPTIONAL_HEADER_UNION is 264 bytes; the file
header is 20 bytes, a data directory entry 8 bytes, a section header 40 bytes.
Within the union at offset peOff: Signature at 0 (the Te view makes the check
a 16-bit compare), Machine at 4, NumberOfSections at 6, SizeOfOptionalHeader
at 20, Characteristics at 22, optional-header Magic at 24.  For PE32 and PE32+
alike SizeOfImage is at peOff + 80, SizeOfHeaders at peOff + 84 and CheckSum at
peOff + 88; NumberOfRvaAndSizes is at peOff + 116 (PE32) or peOff + 132
(PE32+); DataDirectory[4] (security) at peOff + 152 or peOff + 168 and
DataDirectory[5] (base relocations) 8 bytes later.  In a section header,
SizeOfRawData is at offset 16 and PointerToRawData at offset 20.
-/

/-- Byte of the image at a given offset; reads outside the buffer are junk in
the C program and are modelled as 0 (no theorem depends on the junk value). -/
def readByte (image : List Nat) (off : Nat) : Nat :=
  image.getD off 0

/-- Little-endian read of a fixed number of bytes starting at an offset. -/
def readLE (image : List Nat) : Nat → Nat → Nat
  | _, 0 => 0
  | off, w + 1 => readByte image off + 256 * readLE image (off + 1) w

def EFI_IMAGE_DOS_SIGNATURE : Nat := 0x5A4D

def sizeOfDosHeader : Nat := 64

def sizeOfOptionalHeaderUnion : Nat := 264

/-- MaxHeaderSize computed exactly as in GetPeHeader. -/
def maxHeaderSize : Nat :=
  if sizeOfOptionalHeaderUnion ≤ sizeOfDosHeader then sizeOfDosHeader
  else sizeOfOptionalHeaderUnion

def EFI_FAT_MAGIC : Nat := 0x0EF1FAB9

def CPU_TYPE_X86 : Nat := 7

def CPU_TYPE_X86_64 : Nat := 0x01000007

/-- ImageAddress from the source: returns Image + Address when Address is at
most Size and NULL otherwise.  The pointer is modelled by the offset itself,
NULL by none. -/
def ImageAddress (size address : Nat) : Option Nat :=
  if size < address then none else some address

/-- GetPeHeaderMagicValue: the IA-64 erratum override on the optional-header
magic (Machine 0x0200 with magic 0x10B is treated as 0x20B). -/
def GetPeHeaderMagicValue (image : List Nat) (peOff : Nat) : Nat :=
  if readLE image (peOff + 4) 2 = 0x0200 ∧ readLE image (peOff + 24) 2 = 0x10B
  then 0x20B
  else readLE image (peOff + 24) 2

/-- The DOS-header branch of GetPeHeader.  When e_magic matches, e_lfanew is
range checked and becomes the PE header offset; otherwise the PE header is
taken at offset 0.  Note that e_lfanew itself is always the 32-bit field at
image offset 60. -/
def peHdrOffset (image : List Nat) (imageSize : Nat) : Except Unit Nat :=
  if readLE image 0 2 = EFI_IMAGE_DOS_SIGNATURE then
    if imageSize < readLE image 60 4 then .error ()
    else if imageSize - sizeOfOptionalHeaderUnion < readLE image 60 4 then .error ()
    else .ok (readLE image 60 4)
  else .ok 0

/-- SectionHeaderOffset as the source computes it: from DosHdr->e_lfanew (the
field at image offset 60, read regardless of whether the DOS magic matched),
plus sizeof(uint32) + sizeof(file header) + SizeOfOptionalHeader, truncated to
32 bits. -/
def sectionHeaderOffset (image : List Nat) (sizeOpt : Nat) : Nat :=
  (readLE image 60 4 + 4 + 20 + sizeOpt) % 2 ^ 32

/-- The PE32 optional-header checks of GetPeHeader, in source order:
NumberOfRvaAndSizes at most 16; SizeOfOptionalHeader equals the 96-byte fixed
part plus the data directories; SizeOfImage and SizeOfHeaders each bound the
section header table, the first strictly, the second non-strictly. -/
def pe32HeaderOk (image : List Nat) (peOff : Nat) : Bool :=
  let numRva := readLE image (peOff + 116) 4
  let sizeOpt := readLE image (peOff + 20) 2
  let sho := sectionHeaderOffset image sizeOpt
  let soi := readLE image (peOff + 80) 4
  let soh := readLE image (peOff + 84) 4
  let n := readLE image (peOff + 6) 2
  decide (numRva ≤ 16) && decide (96 ≤ sizeOpt) &&
  decide (sizeOpt - 96 = numRva * 8) &&
  decide (sho ≤ soi) && decide (n < (soi - sho) / 40) &&
  decide (sho ≤ soh) && decide (n ≤ (soh - sho) / 40)

/-- The PE32+ optional-header checks; fixed part 112 bytes, NumberOfRvaAndSizes
at peOff + 132, the remaining bounds identical to the PE32 case. -/
def pe64HeaderOk (image : List Nat) (peOff : Nat) : Bool :=
  let numRva := readLE image (peOff + 132) 4
  let sizeOpt := readLE image (peOff + 20) 2
  let sho := sectionHeaderOffset image sizeOpt
  let soi := readLE image (peOff + 80) 4
  let soh := readLE image (peOff + 84) 4
  let n := readLE image (peOff + 6) 2
  decide (numRva ≤ 16) && decide (112 ≤ sizeOpt) &&
  decide (sizeOpt - 112 = numRva * 8) &&
  decide (sho ≤ soi) && decide (n < (soi - sho) / 40) &&
  decide (sho ≤ soh) && decide (n ≤ (soh - sho) / 40)

/-- APPLE_PE_COFF_LOADER_IMAGE_CONTEXT, with the pointer fields stored as byte
offsets into the image.  SumOfSectionBytes is only used for a check inside
GetPeHeader and is not consumed downstream, so it is not a field here. -/
structure PeCoffContext where
  peHdrOff : Nat
  peHdrMagic : Nat
  imageSize : Nat
  sizeOfOptionalHeader : Nat
  optHdrChecksumOff : Nat
  sizeOfHeaders : Nat
  entryPoint : Nat
  imageBase : Nat
  relocDirOff : Nat
  numberOfRvaAndSizes : Nat
  numberOfSections : Nat
  firstSectionOff : Nat
  secDirOff : Nat
deriving DecidableEq, Repr

/-- Context fill for the PE32 variant. -/
def mkCtx32 (image : List Nat) (peOff : Nat) : PeCoffContext :=
  ⟨peOff, 0x10B,
   readLE image (peOff + 80) 4,
   readLE image (peOff + 20) 2,
   peOff + 88,
   readLE image (peOff + 84) 4,
   readLE image (peOff + 40) 4,
   readLE image (peOff + 52) 4,
   peOff + 160,
   readLE image (peOff + 116) 4,
   readLE image (peOff + 6) 2,
   peOff + readLE image (peOff + 20) 2 + 4 + 20,
   peOff + 152⟩

/-- Context fill for the PE32+ variant.  SizeOfOptionalHeader, NumberOfSections
and FirstSection are taken through the PE32 view in the source; the byte
offsets coincide, so the reads below are the same bytes. -/
def mkCtx64 (image : List Nat) (peOff : Nat) : PeCoffContext :=
  ⟨peOff, 0x20B,
   readLE image (peOff + 80) 4,
   readLE image (peOff + 20) 2,
   peOff + 88,
   readLE image (peOff + 84) 4,
   readLE image (peOff + 40) 4,
   readLE image (peOff + 48) 8,
   peOff + 176,
   readLE image (peOff + 132) 4,
   readLE image (peOff + 6) 2,
   peOff + readLE image (peOff + 20) 2 + 4 + 20,
   peOff + 168⟩

/-- The SumOfSectionBytes walk of GetPeHeader: adds each SizeOfRawData in
64-bit arithmetic, failing if the running sum would wrap. -/
def sumSectionsAux (image : List Nat) : Nat → Nat → Nat → Except Unit Nat
  | _, 0, s => .ok s
  | off, n + 1, s =>
    let s2 := (s + readLE image (off + 16) 4) % 2 ^ 64
    if s2 < s then .error ()
    else sumSectionsAux image (off + 40) n s2

/-- The checks of GetPeHeader that follow the magic-specific part: the PE
signature compare (through the Te view, hence 16 bits), the relocations
stripped bit, the section byte sum against the buffer size, SizeOfImage
against SizeOfHeaders, and the security data-directory entry bounds. -/
def finishPeHeader (image : List Nat) (imageSize : Nat) (ctx : PeCoffContext) :
    Except Unit PeCoffContext :=
  if readLE image ctx.peHdrOff 2 ≠ 0x4550 then .error ()
  else if readLE image (ctx.peHdrOff + 22) 2 % 2 = 1 then .error ()
  else
    match sumSectionsAux image ctx.firstSectionOff ctx.numberOfSections 0 with
    | .error e => .error e
    | .ok s =>
      if imageSize ≤ s then .error ()
      else if ctx.imageSize < ctx.sizeOfHeaders then .error ()
      else if imageSize - 8 < ctx.secDirOff then .error ()
      else if imageSize ≤ readLE image ctx.secDirOff 4 then .error ()
      else .ok ctx

/-- GetPeHeader: validates the DOS and PE headers of the image and produces the
loader context. -/
def GetPeHeader (image : List Nat) (imageSize : Nat) : Except Unit PeCoffContext :=
  if imageSize < maxHeaderSize then .error ()
  else
    match peHdrOffset image imageSize with
    | .error e => .error e
    | .ok peOff =>
      if GetPeHeaderMagicValue image peOff = 0x10B then
        if pe32HeaderOk image peOff then finishPeHeader image imageSize (mkCtx32 image peOff)
        else .error ()
      else if GetPeHeaderMagicValue image peOff = 0x20B then
        if pe64HeaderOk image peOff then finishPeHeader image imageSize (mkCtx64 image peOff)
        else .error ()
      else .error ()

/-- A range of image bytes fed to Sha256Update: start offset relative to the
image base (an Int, since unchecked pointer arithmetic can go below the base)
and the length argument as the unsigned value passed to the primitive. -/
structure HashRun where
  start : Int
  len : Nat
deriving DecidableEq, Repr

/-- The two section-header fields the hasher consults. -/
structure SectionRec where
  pointerToRawData : Nat
  sizeOfRawData : Nat
deriving DecidableEq, Repr

/-- Section headers as read from the table at FirstSection. -/
def sectionsOf (image : List Nat) (firstOff n : Nat) : List SectionRec :=
  (List.range n).map (fun i =>
    ⟨readLE image (firstOff + 40 * i + 20) 4,
     readLE image (firstOff + 40 * i + 16) 4⟩)

/-- One step of the insertion sort in GetApplePeImageSha256: the incoming
record is shifted left past entries with strictly larger PointerToRawData,
so it lands after every entry with an equal or smaller key (stable). -/
def insertSection (sec : SectionRec) : List SectionRec → List SectionRec
  | [] => [sec]
  | t :: ts =>
    if sec.pointerToRawData < t.pointerToRawData then sec :: t :: ts
    else t :: insertSection sec ts

/-- The full insertion sort over a copy of the section header table, taking
the sections in their on-disk order. -/
def sortSections (secs : List SectionRec) : List SectionRec :=
  secs.foldl (fun acc s => insertSection s acc) []

/-- The body of the section-hashing loop for one section at position idx of
the sorted order, carrying the codecave indicator and SumOfBytesHashed.
Empty sections are skipped.  The codecave branch fires when PointerToRawData
differs from the indicator and idx is positive; its start is the indicator
truncated to 32 bits (checked by ImageAddress), its length the 64-bit
difference PointerToRawData - indicator, and that length is also added to
SumOfBytesHashed.  The section body is then hashed from its (checked) start
for SizeOfRawData bytes; both updates to SumOfBytesHashed truncate to 32
bits, as does the new indicator PointerToRawData + SizeOfRawData. -/
def sectionStep (imageSize idx : Nat) (sec : SectionRec) (cci sum : Nat) :
    Except Unit (List HashRun × Nat × Nat) :=
  if sec.sizeOfRawData = 0 then .ok ([], cci, sum)
  else if sec.pointerToRawData ≠ cci ∧ 0 < idx then
    match ImageAddress imageSize (cci % 2 ^ 32) with
    | none => .error ()
    | some gapBase =>
      let gapLen := (((sec.pointerToRawData : Int) - (cci : Int)).emod (2 ^ 64)).toNat
      let sum1 := (sum + gapLen) % 2 ^ 32
      match ImageAddress imageSize sec.pointerToRawData with
      | none => .error ()
      | some base =>
        .ok ([⟨(gapBase : Int), gapLen⟩, ⟨(base : Int), sec.sizeOfRawData⟩],
             (sec.pointerToRawData + sec.sizeOfRawData) % 2 ^ 32,
             (sum1 + sec.sizeOfRawData) % 2 ^ 32)
  else
    match ImageAddress imageSize sec.pointerToRawData with
    | none => .error ()
    | some base =>
      .ok ([⟨(base : Int), sec.sizeOfRawData⟩],
           (sec.pointerToRawData + sec.sizeOfRawData) % 2 ^ 32,
           (sum + sec.sizeOfRawData) % 2 ^ 32)

/-- The section-hashing loop folded over the sorted sections. -/
def hashSections (imageSize : Nat) :
    List SectionRec → Nat → Nat → Nat → Except Unit (List HashRun × Nat × Nat)
  | [], _, cci, sum => .ok ([], cci, sum)
  | sec :: rest, idx, cci, sum =>
    match sectionStep imageSize idx sec cci sum with
    | .error e => .error e
    | .ok (rs, cci2, sum2) =>
      match hashSections imageSize rest (idx + 1) cci2 sum2 with
      | .error e => .error e
      | .ok (rs2, cci3, sum3) => .ok (rs ++ rs2, cci3, sum3)

/-- GetApplePeImageSha256, returning the transcript of ranges fed to
Sha256Update together with the final SumOfBytesHashed.

Step 1 hashes the 64 DOS-header bytes at offset 0.  Step 2 hashes from
e_lfanew (always the field at image offset 60) for OptHdrChecksum - HashBase
bytes.  Step 3 either (no security entry, NumberOfRvaAndSizes at most 4)
hashes one run whose start is Image + HashSize, i.e. the previous LENGTH
reused as an offset from the image base, for SizeOfHeaders - HashSize -
e_lfanew bytes, or (otherwise) hashes from the end of the CheckSum field to
the security directory entry and from the relocation directory entry to
SizeOfHeaders.  Step 4 is the section loop.  Step 5, guarded by ImageSize >
SumOfBytesHashed, hashes SecDir->Size bytes ending at SecDir->VirtualAddress
with no bounds validation, then advances SumOfBytesHashed by Size + 8 and by
the SignatureDirectorySize field of the signature directory.  Step 6 hashes
any remaining tail [SumOfBytesHashed, ImageSize).

Modelled from the spec: the signature directory layout (header file not under
src/) is an opaque prelude with the 32-bit signature_directory_size field at
offset 4 of the directory, which lives at SecDir->VirtualAddress. -/
def GetApplePeImageSha256 (image : List Nat) (imageSize : Nat)
    (ctx : PeCoffContext) : Except Unit (List HashRun × Nat) :=
  let eLfanew := readLE image 60 4
  let hs2 := (((ctx.optHdrChecksumOff : Int) - (eLfanew : Int)).emod (2 ^ 64)).toNat
  let prologue : List HashRun :=
    if ctx.numberOfRvaAndSizes ≤ 4 then
      [⟨(hs2 : Int),
        (((ctx.sizeOfHeaders : Int) - (hs2 : Int) - (eLfanew : Int)).emod (2 ^ 64)).toNat⟩]
    else
      [⟨((ctx.optHdrChecksumOff + 4 : Nat) : Int),
        (((ctx.secDirOff : Int) - ((ctx.optHdrChecksumOff + 4 : Nat) : Int)).emod (2 ^ 64)).toNat⟩,
       ⟨(ctx.relocDirOff : Int),
        (((ctx.sizeOfHeaders : Int) - ((ctx.relocDirOff % 2 ^ 32 : Nat) : Int)).emod (2 ^ 32)).toNat⟩]
  let headerRuns : List HashRun := ⟨0, 64⟩ :: ⟨(eLfanew : Int), hs2⟩ :: prologue
  match hashSections imageSize
      (sortSections (sectionsOf image ctx.firstSectionOff ctx.numberOfSections))
      0 0 (ctx.sizeOfHeaders % 2 ^ 32) with
  | .error e => .error e
  | .ok (secRuns, _, sum1) =>
    if imageSize ≤ sum1 then .ok (headerRuns ++ secRuns, sum1)
    else
      let secVA := readLE image ctx.secDirOff 4
      let secSize := readLE image (ctx.secDirOff + 4) 4
      let run5 : HashRun := ⟨(secVA : Int) - (secSize : Int), secSize⟩
      let sum2 := (sum1 + secSize + 8) % 2 ^ 32
      let sum3 := (sum2 + readLE image (secVA + 4) 4) % 2 ^ 32
      if imageSize ≤ sum3 then .ok (headerRuns ++ secRuns ++ [run5], sum3)
      else .ok (headerRuns ++ secRuns ++ [run5, ⟨(sum3 : Nat), imageSize - sum3⟩], sum3)

/-- GetApplePeImageSignature: copies the 256-byte public key and signature out
of the signature directory at SecDir->VirtualAddress in on-disk little-endian
order and builds the byte-reversed mirrors.  It cannot fail.

Modelled from the spec: the directory layout (header not under src/) places
the public key after a 48-byte prelude and the signature directly after it. -/
def GetApplePeImageSignature (image : List Nat) (ctx : PeCoffContext) :
    Except Unit (List Nat × List Nat × List Nat × List Nat) :=
  let sigVA := readLE image ctx.secDirOff 4
  let pkLe := (List.range 256).map (fun i => readByte image (sigVA + 48 + i))
  let sigLe := (List.range 256).map (fun i => readByte image (sigVA + 304 + i))
  .ok (pkLe, pkLe.reverse, sigLe, sigLe.reverse)

/-- Result of VerifyApplePeImageSignature, tagged by the return site of the
source (the tags correspond to the distinct diagnostic messages); the process
exit value collapses them through toInt. -/
inductive VerifyResult where
  | malformedImage
  | signatureBroken
  | hashFailure
  | unknownKey
  | signatureMismatch
  | ok
deriving DecidableEq, Repr

/-- The int the source returns for each outcome: 0 on success, -1 otherwise. -/
def VerifyResult.toInt : VerifyResult → Int
  | .ok => 0
  | _ => -1

/-- One record of PkDataBase: the SHA-256 of a trusted little-endian public
key together with the prepared key material, the latter opaque here.
Modelled from the spec: the table itself (ApplePkDb.h, not under src/) is
compile-time data, so it is a parameter of the verifier. -/
structure PkEntry where
  hash : List Nat
  publicKey : Nat
deriving DecidableEq, Repr

/-- The database scan: every entry is compared and a match overwrites Pk, so
with several matching entries the last one wins (the loop has no break). -/
def lookupPk (table : List PkEntry) (h : List Nat) : Option Nat :=
  table.foldl (fun acc e => if e.hash = h then some e.publicKey else acc) none

/-- Byte at a possibly negative offset, for assembling the bytes named by a
transcript range (out-of-range bytes are junk in C, modelled as 0). -/
def runByteAt (image : List Nat) (pos : Int) : Nat :=
  if 0 ≤ pos then readByte image pos.toNat else 0

/-- The byte stream a transcript denotes, fed to the SHA-256 oracle. -/
def runsBytes (image : List Nat) (runs : List HashRun) : List Nat :=
  runs.foldr (fun r acc =>
    ((List.range r.len).map (fun i => runByteAt image (r.start + (i : Int)))) ++ acc) []

/-- VerifyApplePeImageSignature: parse the PE context, extract key and
signature, compute the Apple Authenticode digest, hash the little-endian
public key, look it up in the trusted table (failing with unknownKey on a
miss, before any RSA call), and finally accept exactly when the RSA oracle
returns 1 on the prepared key, the big-endian signature and the digest.
The SHA-256 and RSA primitives are the external collaborators sha and rsa.

The tail of VerifyApplePeImageSignature after the digest is available:
the database scan followed, on a hit, by the RSA verify call on the selected
key, the big-endian signature and the digest; a miss is unknownKey and no RSA
call is made (the result does not consult rsa). -/
def keyStage (rsa : Nat → List Nat → List Nat → Int) (table : List PkEntry)
    (pkHash sigBe digest : List Nat) : VerifyResult :=
  match lookupPk table pkHash with
  | none => .unknownKey
  | some pk => if rsa pk sigBe digest = 1 then .ok else .signatureMismatch

def VerifyApplePeImageSignature (sha : List Nat → List Nat)
    (rsa : Nat → List Nat → List Nat → Int) (table : List PkEntry)
    (image : List Nat) (imageSize : Nat) : VerifyResult :=
  match GetPeHeader image imageSize with
  | .error _ => .malformedImage
  | .ok ctx =>
    match GetApplePeImageSignature image ctx with
    | .error _ => .signatureBroken
    | .ok (pkLe, _pkBe, _sigLe, sigBe) =>
      match GetApplePeImageSha256 image imageSize ctx with
      | .error _ => .hashFailure
      | .ok (runs, _) =>
        keyStage rsa table (sha pkLe) sigBe (sha (runsBytes image runs))

/-- One arch record of the fat header.  Modelled from the spec: the container
layout (header not under src/) is an 8-byte header (magic, num_archs) followed
by 20-byte arch records of five 32-bit fields. -/
structure FatArch where
  cpuType : Nat
  cpuSubtype : Nat
  offset : Nat
  size : Nat
  align : Nat
deriving DecidableEq, Repr

def archAt (image : List Nat) (i : Nat) : FatArch :=
  ⟨readLE image (8 + 20 * i) 4,
   readLE image (8 + 20 * i + 4) 4,
   readLE image (8 + 20 * i + 8) 4,
   readLE image (8 + 20 * i + 12) 4,
   readLE image (8 + 20 * i + 16) 4⟩

def archsOf (image : List Nat) (n : Nat) : List FatArch :=
  (List.range n).map (archAt image)

/-- The arch loop of VerifyAppleImageSignature.  Only x86 and x86_64 slices
are bounds checked and verified; every arch, verified or skipped, moves
SizeOfBinary to its offset + size; after the loop SizeOfBinary must equal
ImageSize exactly. -/
def fatLoop (sha : List Nat → List Nat) (rsa : Nat → List Nat → List Nat → Int)
    (table : List PkEntry) (image : List Nat) (imageSize : Nat) :
    List FatArch → Nat → Int
  | [], sizeOfBinary => if sizeOfBinary ≠ imageSize then -1 else 0
  | a :: rest, sizeOfBinary =>
    if a.cpuType = CPU_TYPE_X86 ∨ a.cpuType = CPU_TYPE_X86_64 then
      if a.offset < sizeOfBinary ∨ imageSize ≤ a.offset ∨ imageSize < a.offset + a.size
      then -1
      else if (VerifyApplePeImageSignature sha rsa table (image.drop a.offset) a.size).toInt ≠ 0
      then -1
      else fatLoop sha rsa table image imageSize rest (a.offset + a.size)
    else fatLoop sha rsa table image imageSize rest (a.offset + a.size)

/-- VerifyAppleImageSignature: a buffer below the fat header size is rejected;
without the fat magic the buffer is verified as a single PE image; otherwise
the header plus arch table must fit and the arch loop runs with SizeOfBinary
starting at its end. -/
def VerifyAppleImageSignature (sha : List Nat → List Nat)
    (rsa : Nat → List Nat → List Nat → Int) (table : List PkEntry)
    (image : List Nat) (imageSize : Nat) : Int :=
  if imageSize < 8 then -1
  else if readLE image 0 4 ≠ EFI_FAT_MAGIC then
    (VerifyApplePeImageSignature sha rsa table image imageSize).toInt
  else if imageSize < 8 + 20 * readLE image 4 4 then -1
  else fatLoop sha rsa table image imageSize
    (archsOf image (readLE image 4 4)) (8 + 20 * readLE image 4 4)

/-- A 400-byte PE32 test image, written out as the literal byte list the C
program would receive: DOS magic, e_lfanew 64, PE32 magic, 16 data
directories, one section of 10 raw bytes at file offset 100, SizeOfImage 400
and SizeOfHeaders 352 -- chosen so that (SizeOfHeaders -
SectionHeaderOffset) / 40 equals NumberOfSections exactly. -/
def imgC5 : List Nat :=
  [77, 90, 0, 0, 0, 0, 0, 0, 0, 0, 0, 0, 0, 0, 0, 0, 0, 0, 0, 0, 0, 0, 0, 0,
   0, 0, 0, 0, 0, 0, 0, 0, 0, 0, 0, 0, 0, 0, 0, 0, 0, 0, 0, 0, 0, 0, 0, 0,
   0, 0, 0, 0, 0, 0, 0, 0, 0, 0, 0, 0, 64, 0, 0, 0, 80, 69, 0, 0, 0, 0, 1,
   0, 0, 0, 0, 0, 0, 0, 0, 0, 0, 0, 0, 0, 224, 0, 0, 0, 11, 1, 0, 0, 0, 0,
   0, 0, 0, 0, 0, 0, 0, 0, 0, 0, 0, 0, 0, 0, 0, 0, 0, 0, 0, 0, 0, 0, 0, 0,
   0, 0, 0, 0, 0, 0, 0, 0, 0, 0, 0, 0, 0, 0, 0, 0, 0, 0, 0, 0, 0, 0, 0, 0,
   0, 0, 144, 1, 0, 0, 96, 1, 0, 0, 0, 0, 0, 0, 0, 0, 0, 0, 0, 0, 0, 0, 0,
   0, 0, 0, 0, 0, 0, 0, 0, 0, 0, 0, 0, 0, 0, 0, 16, 0, 0, 0, 0, 0, 0, 0, 0,
   0, 0, 0, 0, 0, 0, 0, 0, 0, 0, 0, 0, 0, 0, 0, 0, 0, 0, 0, 0, 0, 0, 0, 0,
   0, 0, 0, 0, 0, 0, 0, 0, 0, 0, 0, 0, 0, 0, 0, 0, 0, 0, 0, 0, 0, 0, 0, 0,
   0, 0, 0, 0, 0, 0, 0, 0, 0, 0, 0, 0, 0, 0, 0, 0, 0, 0, 0, 0, 0, 0, 0, 0,
   0, 0, 0, 0, 0, 0, 0, 0, 0, 0, 0, 0, 0, 0, 0, 0, 0, 0, 0, 0, 0, 0, 0, 0,
   0, 0, 0, 0, 0, 0, 0, 0, 0, 0, 0, 0, 0, 0, 0, 0, 0, 0, 0, 0, 0, 0, 0, 0,
   0, 0, 0, 0, 0, 0, 0, 0, 0, 0, 0, 0, 0, 0, 0, 0, 0, 0, 0, 10, 0, 0, 0,
   100, 0, 0, 0, 0, 0, 0, 0, 0, 0, 0, 0, 0, 0, 0, 0, 0, 0, 0, 0, 0, 0, 0, 0,
   0, 0, 0, 0, 0, 0, 0, 0, 0, 0, 0, 0, 0, 0, 0, 0, 0, 0, 0, 0, 0, 0, 0, 0,
   0, 0, 0, 0, 0, 0, 0, 0, 0, 0, 0, 0, 0, 0, 0, 0, 0, 0, 0, 0]

/-- A 400-byte PE32 image like imgC5 but whose single section claims 399 raw
bytes located at file offset 400 = image size: the start passes ImageAddress
while the range extends far past the buffer. -/
def imgC1 : List Nat :=
  [77, 90, 0, 0, 0, 0, 0, 0, 0, 0, 0, 0, 0, 0, 0, 0, 0, 0, 0, 0, 0, 0, 0, 0,
   0, 0, 0, 0, 0, 0, 0, 0, 0, 0, 0, 0, 0, 0, 0, 0, 0, 0, 0, 0, 0, 0, 0, 0,
   0, 0, 0, 0, 0, 0, 0, 0, 0, 0, 0, 0, 64, 0, 0, 0, 80, 69, 0, 0, 0, 0, 1,
   0, 0, 0, 0, 0, 0, 0, 0, 0, 0, 0, 0, 0, 224, 0, 0, 0, 11, 1, 0, 0, 0, 0,
   0, 0, 0, 0, 0, 0, 0, 0, 0, 0, 0, 0, 0, 0, 0, 0, 0, 0, 0, 0, 0, 0, 0, 0,
   0, 0, 0, 0, 0, 0, 0, 0, 0, 0, 0, 0, 0, 0, 0, 0, 0, 0, 0, 0, 0, 0, 0, 0,
   0, 0, 144, 1, 0, 0, 96, 1, 0, 0, 0, 0, 0, 0, 0, 0, 0, 0, 0, 0, 0, 0, 0,
   0, 0, 0, 0, 0, 0, 0, 0, 0, 0, 0, 0, 0, 0, 0, 16, 0, 0, 0, 0, 0, 0, 0, 0,
   0, 0, 0, 0, 0, 0, 0, 0, 0, 0, 0, 0, 0, 0, 0, 0, 0, 0, 0, 0, 0, 0, 0, 0,
   0, 0, 0, 0, 0, 0, 0, 0, 0, 0, 0, 0, 0, 0, 0, 0, 0, 0, 0, 0, 0, 0, 0, 0,
   0, 0, 0, 0, 0, 0, 0, 0, 0, 0, 0, 0, 0, 0, 0, 0, 0, 0, 0, 0, 0, 0, 0, 0,
   0, 0, 0, 0, 0, 0, 0, 0, 0, 0, 0, 0, 0, 0, 0, 0, 0, 0, 0, 0, 0, 0, 0, 0,
   0, 0, 0, 0, 0, 0, 0, 0, 0, 0, 0, 0, 0, 0, 0, 0, 0, 0, 0, 0, 0, 0, 0, 0,
   0, 0, 0, 0, 0, 0, 0, 0, 0, 0, 0, 0, 0, 0, 0, 0, 0, 0, 0, 143, 1, 0, 0,
   144, 1, 0, 0, 0, 0, 0, 0, 0, 0, 0, 0, 0, 0, 0, 0, 0, 0, 0, 0, 0, 0, 0, 0,
   0, 0, 0, 0, 0, 0, 0, 0, 0, 0, 0, 0, 0, 0, 0, 0, 0, 0, 0, 0, 0, 0, 0, 0,
   0, 0, 0, 0, 0, 0, 0, 0, 0, 0, 0, 0, 0, 0, 0, 0, 0, 0, 0, 0]

/-- A 400-byte image with no DOS magic: the PE header sits at offset 0, yet
the four bytes at offset 60 (inside the optional header) hold 60, which the
parser and hasher still use as e_lfanew. -/
def imgC6 : List Nat :=
  [80, 69, 0, 0, 0, 0, 0, 0, 0, 0, 0, 0, 0, 0, 0, 0, 0, 0, 0, 0, 224, 0, 0,
   0, 11, 1, 0, 0, 0, 0, 0, 0, 0, 0, 0, 0, 0, 0, 0, 0, 0, 0, 0, 0, 0, 0, 0,
   0, 0, 0, 0, 0, 0, 0, 0, 0, 0, 0, 0, 0, 60, 0, 0, 0, 0, 0, 0, 0, 0, 0, 0,
   0, 0, 0, 0, 0, 0, 0, 0, 0, 144, 1, 0, 0, 94, 1, 0, 0, 0, 0, 0, 0, 0, 0,
   0, 0, 0, 0, 0, 0, 0, 0, 0, 0, 0, 0, 0, 0, 0, 0, 0, 0, 0, 0, 0, 0, 16, 0,
   0, 0, 0, 0, 0, 0, 0, 0, 0, 0, 0, 0, 0, 0, 0, 0, 0, 0, 0, 0, 0, 0, 0, 0,
   0, 0, 0, 0, 0, 0, 0, 0, 0, 0, 0, 0, 0, 0, 0, 0, 0, 0, 0, 0, 0, 0, 0, 0,
   0, 0, 0, 0, 0, 0, 0, 0, 0, 0, 0, 0, 0, 0, 0, 0, 0, 0, 0, 0, 0, 0, 0, 0,
   0, 0, 0, 0, 0, 0, 0, 0, 0, 0, 0, 0, 0, 0, 0, 0, 0, 0, 0, 0, 0, 0, 0, 0,
   0, 0, 0, 0, 0, 0, 0, 0, 0, 0, 0, 0, 0, 0, 0, 0, 0, 0, 0, 0, 0, 0, 0, 0,
   0, 0, 0, 0, 0, 0, 0, 0, 0, 0, 0, 0, 0, 0, 0, 0, 0, 0, 0, 0, 0, 0, 0, 0,
   0, 0, 0, 0, 0, 0, 0, 0, 0, 0, 0, 0, 0, 0, 0, 0, 0, 0, 0, 0, 0, 0, 0, 0,
   0, 0, 0, 0, 0, 0, 0, 0, 0, 0, 0, 0, 0, 0, 0, 0, 0, 0, 0, 0, 0, 0, 0, 0,
   0, 0, 0, 0, 0, 0, 0, 0, 0, 0, 0, 0, 0, 0, 0, 0, 0, 0, 0, 0, 0, 0, 0, 0,
   0, 0, 0, 0, 0, 0, 0, 0, 0, 0, 0, 0, 0, 0, 0, 0, 0, 0, 0, 0, 0, 0, 0, 0,
   0, 0, 0, 0, 0, 0, 0, 0, 0, 0, 0, 0, 0, 0, 0, 0, 0, 0, 0, 0, 0, 0, 0, 0,
   0, 0, 0, 0, 0, 0, 0, 0, 0, 0, 0, 0, 0, 0, 0, 0, 0, 0]

/-- A 400-byte PE32 image with e_lfanew 64 and NumberOfRvaAndSizes 4 (no
security data-directory entry), SizeOfOptionalHeader 128, SizeOfHeaders 300. -/
def imgC7 : List Nat :=
  [77, 90, 0, 0, 0, 0, 0, 0, 0, 0, 0, 0, 0, 0, 0, 0, 0, 0, 0, 0, 0, 0, 0, 0,
   0, 0, 0, 0, 0, 0, 0, 0, 0, 0, 0, 0, 0, 0, 0, 0, 0, 0, 0, 0, 0, 0, 0, 0,
   0, 0, 0, 0, 0, 0, 0, 0, 0, 0, 0, 0, 64, 0, 0, 0, 80, 69, 0, 0, 0, 0, 0,
   0, 0, 0, 0, 0, 0, 0, 0, 0, 0, 0, 0, 0, 128, 0, 0, 0, 11, 1, 0, 0, 0, 0,
   0, 0, 0, 0, 0, 0, 0, 0, 0, 0, 0, 0, 0, 0, 0, 0, 0, 0, 0, 0, 0, 0, 0, 0,
   0, 0, 0, 0, 0, 0, 0, 0, 0, 0, 0, 0, 0, 0, 0, 0, 0, 0, 0, 0, 0, 0, 0, 0,
   0, 0, 144, 1, 0, 0, 44, 1, 0, 0, 0, 0, 0, 0, 0, 0, 0, 0, 0, 0, 0, 0, 0,
   0, 0, 0, 0, 0, 0, 0, 0, 0, 0, 0, 0, 0, 0, 0, 4, 0, 0, 0, 0, 0, 0, 0, 0,
   0, 0, 0, 0, 0, 0, 0, 0, 0, 0, 0, 0, 0, 0, 0, 0, 0, 0, 0, 0, 0, 0, 0, 0,
   0, 0, 0, 0, 0, 0, 0, 0, 0, 0, 0, 0, 0, 0, 0, 0, 0, 0, 0, 0, 0, 0, 0, 0,
   0, 0, 0, 0, 0, 0, 0, 0, 0, 0, 0, 0, 0, 0, 0, 0, 0, 0, 0, 0, 0, 0, 0, 0,
   0, 0, 0, 0, 0, 0, 0, 0, 0, 0, 0, 0, 0, 0, 0, 0, 0, 0, 0, 0, 0, 0, 0, 0,
   0, 0, 0, 0, 0, 0, 0, 0, 0, 0, 0, 0, 0, 0, 0, 0, 0, 0, 0, 0, 0, 0, 0, 0,
   0, 0, 0, 0, 0, 0, 0, 0, 0, 0, 0, 0, 0, 0, 0, 0, 0, 0, 0, 0, 0, 0, 0, 0,
   0, 0, 0, 0, 0, 0, 0, 0, 0, 0, 0, 0, 0, 0, 0, 0, 0, 0, 0, 0, 0, 0, 0, 0,
   0, 0, 0, 0, 0, 0, 0, 0, 0, 0, 0, 0, 0, 0, 0, 0, 0, 0, 0, 0, 0, 0, 0, 0,
   0, 0, 0, 0, 0, 0, 0, 0, 0, 0, 0, 0, 0, 0, 0, 0, 0, 0, 0]

/-- A 500-byte PE32 image with no sections whose security directory entry
points at a signature directory at offset 224 (size field 8), so the whole
verification pipeline reaches the key lookup; the key and signature regions
read as zero bytes. -/
def imgOK : List Nat :=
  [77, 90, 0, 0, 0, 0, 0, 0, 0, 0, 0, 0, 0, 0, 0, 0, 0, 0, 0, 0, 0, 0, 0, 0,
   0, 0, 0, 0, 0, 0, 0, 0, 0, 0, 0, 0, 0, 0, 0, 0, 0, 0, 0, 0, 0, 0, 0, 0,
   0, 0, 0, 0, 0, 0, 0, 0, 0, 0, 0, 0, 64, 0, 0, 0, 80, 69, 0, 0, 0, 0, 0,
   0, 0, 0, 0, 0, 0, 0, 0, 0, 0, 0, 0, 0, 224, 0, 0, 0, 11, 1, 0, 0, 0, 0,
   0, 0, 0, 0, 0, 0, 0, 0, 0, 0, 0, 0, 0, 0, 0, 0, 0, 0, 0, 0, 0, 0, 0, 0,
   0, 0, 0, 0, 0, 0, 0, 0, 0, 0, 0, 0, 0, 0, 0, 0, 0, 0, 0, 0, 0, 0, 0, 0,
   0, 0, 144, 1, 0, 0, 56, 1, 0, 0, 0, 0, 0, 0, 0, 0, 0, 0, 0, 0, 0, 0, 0,
   0, 0, 0, 0, 0, 0, 0, 0, 0, 0, 0, 0, 0, 0, 0, 16, 0, 0, 0, 0, 0, 0, 0, 0,
   0, 0, 0, 0, 0, 0, 0, 0, 0, 0, 0, 0, 0, 0, 0, 0, 0, 0, 0, 0, 0, 0, 0, 0,
   0, 0, 0, 224, 0, 0, 0, 8, 0, 0, 0, 0, 0, 0, 0, 0, 0, 0, 0, 0, 0, 0, 0, 0,
   0, 0, 0, 0, 0, 0, 0, 0, 0, 0, 0, 0, 0, 0, 0, 0, 0, 0, 0, 0, 0, 0, 0, 0,
   0, 0, 0, 0, 0, 0, 0, 0, 0, 0, 0, 0, 0, 0, 0, 0, 0, 0, 0, 0, 0, 0, 0, 0,
   0, 0, 0, 0, 0, 0, 0, 0, 0, 0, 0, 0, 0, 0, 0, 0, 0, 0, 0, 0, 0, 0, 0, 0,
   0, 0, 0, 0, 0, 0, 0, 0, 0, 0, 0, 0, 0, 0, 0, 0, 0, 0, 0, 0, 0, 0, 0, 0,
   0, 0, 0, 0, 0, 0, 0, 0, 0, 0, 0, 0, 0, 0, 0, 0, 0, 0, 0, 0, 0, 0, 0, 0,
   0, 0, 0, 0, 0, 0, 0, 0, 0, 0, 0, 0, 0, 0, 0, 0, 0, 0, 0, 0, 0, 0, 0, 0,
   0, 0, 0, 0, 0, 0, 0, 0, 0, 0, 0, 0, 0, 0, 0, 0, 0, 0, 0, 0, 0, 0, 0, 0,
   0, 0, 0, 0, 0, 0, 0, 0, 0, 0, 0, 0, 0, 0, 0, 0, 0, 0, 0, 0, 0, 0, 0, 0,
   0, 0, 0, 0, 0, 0, 0, 0, 0, 0, 0, 0, 0, 0, 0, 0, 0, 0, 0, 0, 0, 0, 0, 0,
   0, 0, 0, 0, 0, 0, 0, 0, 0, 0, 0, 0, 0, 0, 0, 0, 0, 0, 0, 0, 0, 0, 0, 0,
   0, 0, 0, 0, 0, 0, 0, 0, 0, 0, 0, 0, 0, 0, 0, 0, 0, 0, 0, 0, 0, 0, 0]

/-- The accepting zero-arch fat container of exactly the header size. -/
def imgFat0 : List Nat := [0xB9, 0xFA, 0xF1, 0x0E, 0, 0, 0, 0]

/-- A 128-byte fat container with a single non-x86 arch record at offset 100,
size 28: the region from the end of the arch table (28) to 100 is covered by
no slice, yet the file is accepted. -/
def imgFat1 : List Nat :=
  [185, 250, 241, 14, 1, 0, 0, 0, 12, 0, 0, 0, 0, 0, 0, 0, 100, 0, 0, 0, 28,
   0, 0, 0, 0, 0, 0, 0, 0, 0, 0, 0, 0, 0, 0, 0, 0, 0, 0, 0, 0, 0, 0, 0, 0,
   0, 0, 0, 0, 0, 0, 0, 0, 0, 0, 0, 0, 0, 0, 0, 0, 0, 0, 0, 0, 0, 0, 0, 0,
   0, 0, 0, 0, 0, 0, 0, 0, 0, 0, 0, 0, 0, 0, 0, 0, 0, 0, 0, 0, 0, 0, 0, 0,
   0, 0, 0, 0, 0, 0, 0, 0, 0, 0, 0, 0, 0, 0, 0, 0, 0, 0, 0, 0, 0, 0, 0, 0,
   0, 0, 0, 0, 0, 0, 0, 0, 0, 0, 0]

/-- A constant stand-in for the SHA-256 oracle in concrete runs. -/
def shaC : List Nat → List Nat := fun _ => [7]

/-- An RSA oracle for concrete runs that accepts exactly key material 1. -/
def rsaC : Nat → List Nat → List Nat → Int := fun k _ _ => if k = 1 then 1 else 0


/-- The context GetPeHeader produces for imgC5. -/
def ctxC5 : PeCoffContext :=
  ⟨64, 0x10B, 400, 224, 152, 352, 0, 0, 224, 16, 1, 312, 216⟩

/-- The context GetPeHeader produces for imgC1. -/
def ctxC1 : PeCoffContext :=
  ⟨64, 0x10B, 400, 224, 152, 352, 0, 0, 224, 16, 1, 312, 216⟩

/-- The context GetPeHeader produces for imgC6. -/
def ctxC6 : PeCoffContext :=
  ⟨0, 0x10B, 400, 224, 88, 350, 0, 0, 160, 16, 0, 248, 152⟩

/-- The context GetPeHeader produces for imgC7. -/
def ctxC7 : PeCoffContext :=
  ⟨64, 0x10B, 400, 128, 152, 300, 0, 0, 224, 4, 0, 216, 216⟩

/-- The context GetPeHeader produces for imgOK. -/
def ctxOK : PeCoffContext :=
  ⟨64, 0x10B, 400, 224, 152, 312, 0, 0, 224, 16, 0, 312, 216⟩

/-- C1 counterexample: imgC1 passes GetPeHeader, and hashing it feeds
Sha256Update the range starting at offset 600 of length 599 even though the
image is 600 bytes long, so 599 bytes outside image[0..image_size) are read
while hashing; the start-only check of ImageAddress did not abort. -/
theorem hash_reads_out_of_bounds_c1_cex :
    GetPeHeader imgC1 400 = .ok ctxC1 ∧
    GetApplePeImageSha256 imgC1 400 ctxC1 =
      .ok ([⟨0, 64⟩, ⟨64, 88⟩, ⟨156, 60⟩, ⟨224, 128⟩, ⟨400, 399⟩], 751) ∧
    ¬ ((400 : Int) + 399 ≤ 400) := by
  refine ⟨by decide, by decide, by decide⟩

/-- C2 counterexample: for the first section of the sorted order (index 0)
with PointerToRawData 100 and a codecave indicator of 0, the claim demands
that the gap [0, 100) be hashed because 100 is strictly greater than 0, yet
the loop body emits only the section body run and no gap run. -/
theorem gap_not_hashed_first_index_c2_cex :
    sectionStep 600 0 ⟨100, 10⟩ 0 312 = .ok ([⟨100, 10⟩], 110, 322) ∧
    (0 : Nat) < 100 ∧
    (⟨0, 100⟩ : HashRun) ∉ [(⟨100, 10⟩ : HashRun)] := by
  refine ⟨by decide, by decide, by decide⟩

/-- C3 counterexample: a section of raw size 20 preceded by a codecave of 40
bytes advances SumOfBytesHashed from 322 to 382, not to 322 + 20: the gap
length is added to SumOfBytesHashed as well. -/
theorem gap_added_to_sum_c3_cex :
    sectionStep 600 1 ⟨150, 20⟩ 110 322 = .ok ([⟨110, 40⟩, ⟨150, 20⟩], 170, 382) ∧
    (382 : Nat) ≠ 322 + 20 := by
  refine ⟨by decide, by decide⟩

/-- The tiling property the claim about fat containers asserts, in the words
of the spec: each slice begins exactly where the previous region ends and the
last slice ends exactly at image_size. -/
def fatTilesContiguously : List FatArch → Nat → Nat → Bool
  | [], headerEnd, imageSize => headerEnd == imageSize
  | a :: rest, headerEnd, imageSize =>
    (a.offset == headerEnd) && fatTilesContiguously rest (a.offset + a.size) imageSize

/-- C4 counterexample: imgFat1 is accepted by the top-level verifier (its only
arch is non-x86, so it is skipped with no bounds checks and no PE
verification), yet its arch slice starts at 100 while the arch table ends at
28, leaving the bytes [28, 100) covered by no slice: the slices do not tile
the container. -/
theorem fat_accepts_gap_c4_cex :
    VerifyAppleImageSignature shaC rsaC [] imgFat1 128 = 0 ∧
    fatTilesContiguously (archsOf imgFat1 (readLE imgFat1 4 4))
      (8 + 20 * readLE imgFat1 4 4) 128 = false := by
  refine ⟨by decide, by decide⟩

/-- C5 counterexample: imgC5 is accepted by GetPeHeader although
(SizeOfHeaders - SectionHeaderOffset) / 40 equals NumberOfSections, violating
the strict inequality the claim asserts for SizeOfHeaders. -/
theorem soh_check_nonstrict_c5_cex :
    GetPeHeader imgC5 400 = .ok ctxC5 ∧
    (readLE imgC5 (ctxC5.peHdrOff + 84) 4 -
      sectionHeaderOffset imgC5 ctxC5.sizeOfOptionalHeader) / 40
      = readLE imgC5 (ctxC5.peHdrOff + 6) 2 := by
  refine ⟨by decide, by decide⟩

/-- C6 counterexample: imgC6 has no DOS magic, yet the bytes at offset 60
hold 60 and both consumers use that value rather than 0: the hasher run of
step 2 starts at offset 60, and the section-header-offset bound is computed
as 60 + 4 + 20 + 224 = 308 rather than from 0 (which would give 248). -/
theorem non_mz_lfanew_used_c6_cex :
    readLE imgC6 0 2 ≠ EFI_IMAGE_DOS_SIGNATURE ∧
    GetPeHeader imgC6 400 = .ok ctxC6 ∧
    GetApplePeImageSha256 imgC6 400 ctxC6 =
      .ok ([⟨0, 64⟩, ⟨60, 28⟩, ⟨92, 60⟩, ⟨160, 190⟩, ⟨0, 0⟩, ⟨358, 42⟩], 358) ∧
    (60 : Int) ≠ 0 ∧
    sectionHeaderOffset imgC6 ctxC6.sizeOfOptionalHeader = 308 ∧
    (308 : Nat) ≠ 0 + 4 + 20 + 224 := by
  refine ⟨by decide, by decide, by decide, by decide, by decide, by decide⟩

/-- C7: on imgC7 (NumberOfRvaAndSizes 4, e_lfanew 64, CheckSum at offset 152,
SizeOfHeaders 300) the step-3 run the code produces is [88, 236): it starts
at CheckSum offset minus e_lfanew instead of immediately after the step-2 run
[64, 152), re-hashes the bytes [88, 152) and stops 64 bytes short of
SizeOfHeaders; the run [152, 300) demanded by the claim (and by the comment
in the source) is never fed to SHA-256. -/
theorem short_prologue_run_c7_bug :
    GetPeHeader imgC7 400 = .ok ctxC7 ∧
    GetApplePeImageSha256 imgC7 400 ctxC7 =
      .ok ([⟨0, 64⟩, ⟨64, 88⟩, ⟨88, 148⟩, ⟨0, 0⟩, ⟨308, 92⟩], 308) ∧
    (⟨152, 148⟩ : HashRun) ∉
      [(⟨0, 64⟩ : HashRun), ⟨64, 88⟩, ⟨88, 148⟩, ⟨0, 0⟩, ⟨308, 92⟩] := by
  refine ⟨by decide, by decide, by decide⟩

/-- C9 counterexample: with the trusted table holding one entry of hash [7]
and key material 1 (which the RSA oracle accepts), imgOK verifies to Ok; the
table extended by a second entry with the same hash [7] but key material 2
(which the RSA oracle rejects) makes the very same image verify to Err,
because the lookup loop has no break and the last matching entry wins. -/
theorem duplicate_hash_flips_verdict_c9_cex :
    (VerifyApplePeImageSignature shaC rsaC [⟨[7], 1⟩] imgOK 500).toInt = 0 ∧
    (VerifyApplePeImageSignature shaC rsaC ([⟨[7], 1⟩] ++ [⟨[7], 2⟩]) imgOK 500).toInt = -1 := by
  refine ⟨by decide, by decide⟩

/-- C10: ImageAddress validates only the start offset of a read, accepting
any address up to and including the image size, and nothing checks that the
length hashed from a validated start stays within the image: a section whose
body starts exactly at image_size with 599 further bytes passes the check and
is fed to SHA-256 in full. -/
theorem imageAddress_start_only_c10 :
    (∀ size address, ImageAddress size address = some address ↔ address ≤ size) ∧
    sectionStep 600 0 ⟨600, 599⟩ 0 0 = .ok ([⟨600, 599⟩], 1199, 599) ∧
    600 + 599 > (600 : Nat) := by
  refine ⟨fun size address => ?_, by decide, by decide⟩
  unfold ImageAddress
  split <;> simp_all

/-- A successful ImageAddress call returns exactly its address argument, and
that address is within the size bound. -/
theorem imageAddress_ok {N a b : Nat} (h : ImageAddress N a = some b) :
    b = a ∧ a ≤ N := by
  unfold ImageAddress at h
  split at h
  · simp at h
  · next hna => exact ⟨(Option.some.inj h).symm, by omega⟩

/-- A successful finishPeHeader returns the context it was given. -/
theorem finishPeHeader_ok_eq {image : List Nat} {N : Nat} {c ctx : PeCoffContext}
    (h : finishPeHeader image N c = .ok ctx) : ctx = c := by
  unfold finishPeHeader at h
  repeat' split at h
  all_goals first
    | exact ((Except.ok.injEq _ _).mp h).symm
    | exact absurd h (by simp)

/-- Decomposition of a successful GetPeHeader run: the PE offset came from
peHdrOffset, and the context is the PE32 or PE32+ fill with the matching
check set passed. -/
theorem getPeHeader_ok_split {image : List Nat} {N : Nat} {ctx : PeCoffContext}
    (h : GetPeHeader image N = .ok ctx) :
    ∃ peOff, peHdrOffset image N = .ok peOff ∧
      ((pe32HeaderOk image peOff = true ∧ ctx = mkCtx32 image peOff) ∨
       (pe64HeaderOk image peOff = true ∧ ctx = mkCtx64 image peOff)) := by
  unfold GetPeHeader at h
  split at h
  · exact absurd h (by simp)
  split at h
  · exact absurd h (by simp)
  next peOff hp =>
  refine ⟨peOff, hp, ?_⟩
  split at h
  · split at h
    · next hok _ => exact Or.inl ⟨by assumption, finishPeHeader_ok_eq h⟩
    · exact absurd h (by simp)
  · split at h
    · split at h
      · next hok _ => exact Or.inr ⟨by assumption, finishPeHeader_ok_eq h⟩
      · exact absurd h (by simp)
    · exact absurd h (by simp)

/-- C5 (amended): every image GetPeHeader accepts satisfies exactly the
section-table bounds the code enforces: SizeOfImage is at least the
section-header offset with (SizeOfImage - offset) / 40 STRICTLY greater than
NumberOfSections, while SizeOfHeaders is at least the offset with
(SizeOfHeaders - offset) / 40 greater than OR EQUAL to NumberOfSections. -/
theorem getPeHeader_section_checks_c5 (image : List Nat) (N : Nat)
    (ctx : PeCoffContext) (h : GetPeHeader image N = .ok ctx) :
    sectionHeaderOffset image ctx.sizeOfOptionalHeader ≤ readLE image (ctx.peHdrOff + 80) 4 ∧
    readLE image (ctx.peHdrOff + 6) 2 <
      (readLE image (ctx.peHdrOff + 80) 4 -
        sectionHeaderOffset image ctx.sizeOfOptionalHeader) / 40 ∧
    sectionHeaderOffset image ctx.sizeOfOptionalHeader ≤ readLE image (ctx.peHdrOff + 84) 4 ∧
    readLE image (ctx.peHdrOff + 6) 2 ≤
      (readLE image (ctx.peHdrOff + 84) 4 -
        sectionHeaderOffset image ctx.sizeOfOptionalHeader) / 40 := by
  obtain ⟨peOff, -, hcase⟩ := getPeHeader_ok_split h
  rcases hcase with ⟨hok, rfl⟩ | ⟨hok, rfl⟩
  · simp only [pe32HeaderOk, Bool.and_eq_true, decide_eq_true_eq] at hok
    obtain ⟨⟨⟨⟨⟨⟨-, -⟩, -⟩, h4⟩, h5⟩, h6⟩, h7⟩ := hok
    simp only [mkCtx32]
    exact ⟨h4, h5, h6, h7⟩
  · simp only [pe64HeaderOk, Bool.and_eq_true, decide_eq_true_eq] at hok
    obtain ⟨⟨⟨⟨⟨⟨-, -⟩, -⟩, h4⟩, h5⟩, h6⟩, h7⟩ := hok
    simp only [mkCtx64]
    exact ⟨h4, h5, h6, h7⟩

/-- Witness for the amended C5 theorem at the concrete accepted image. -/
theorem getPeHeader_section_checks_c5_witness :
    GetPeHeader imgC5 400 = .ok ctxC5 ∧
    readLE imgC5 (ctxC5.peHdrOff + 6) 2 ≤
      (readLE imgC5 (ctxC5.peHdrOff + 84) 4 -
        sectionHeaderOffset imgC5 ctxC5.sizeOfOptionalHeader) / 40 :=
  ⟨by decide, (getPeHeader_section_checks_c5 imgC5 400 ctxC5 (by decide)).2.2.2⟩

/-- C6 (amended): when the DOS magic is absent the PE header itself is parsed
at offset 0, but the e_lfanew field at image offset 60 is still consumed: the
second range the hasher feeds to SHA-256 (its step-2 run over the PE header)
starts at that value, not at 0. -/
theorem non_mz_pehdr_and_lfanew_c6 (image : List Nat) (N : Nat)
    (ctx : PeCoffContext) (runs : List HashRun) (fsum : Nat)
    (hmz : readLE image 0 2 ≠ EFI_IMAGE_DOS_SIGNATURE)
    (hp : GetPeHeader image N = .ok ctx)
    (hh : GetApplePeImageSha256 image N ctx = .ok (runs, fsum)) :
    ctx.peHdrOff = 0 ∧
    (runs[1]?).map HashRun.start = some ((readLE image 60 4 : Nat) : Int) := by
  obtain ⟨peOff, hpo, hcase⟩ := getPeHeader_ok_split hp
  have hz : peOff = 0 := by
    unfold peHdrOffset at hpo
    rw [if_neg hmz] at hpo
    exact (Except.ok.inj hpo).symm
  subst hz
  have hph : ctx.peHdrOff = 0 := by
    rcases hcase with ⟨-, rfl⟩ | ⟨-, rfl⟩ <;> rfl
  refine ⟨hph, ?_⟩
  simp only [GetApplePeImageSha256] at hh
  split at hh
  · exact absurd hh (by simp)
  · split at hh
    · simp only [Except.ok.injEq, Prod.mk.injEq, List.cons_append] at hh
      obtain ⟨h1, -⟩ := hh
      subst h1
      simp
    · split at hh
      all_goals
        simp only [Except.ok.injEq, Prod.mk.injEq, List.cons_append, List.append_assoc] at hh
        obtain ⟨h1, -⟩ := hh
        subst h1
        simp

/-- Witness for the amended C6 theorem at the concrete image without a DOS
magic whose bytes at offset 60 hold 60. -/
theorem non_mz_pehdr_and_lfanew_c6_witness :
    ctxC6.peHdrOff = 0 ∧
    (([⟨0, 64⟩, ⟨60, 28⟩, ⟨92, 60⟩, ⟨160, 190⟩, ⟨0, 0⟩,
        ⟨358, 42⟩] : List HashRun)[1]?).map HashRun.start =
      some ((readLE imgC6 60 4 : Nat) : Int) :=
  non_mz_pehdr_and_lfanew_c6 imgC6 400 ctxC6
    [⟨0, 64⟩, ⟨60, 28⟩, ⟨92, 60⟩, ⟨160, 190⟩, ⟨0, 0⟩, ⟨358, 42⟩] 358
    (by decide) (by decide) (by decide)

/-- C1 (amended): every range the section loop does feed to SHA-256 has a
start offset that was validated by ImageAddress, so it lies between 0 and
image_size; only the start is validated (the lengths are not, as the
counterexample shows). -/
theorem sectionStep_start_validated_c1 (N idx : Nat) (sec : SectionRec)
    (cci sum : Nat) (rs : List HashRun) (c s : Nat)
    (h : sectionStep N idx sec cci sum = .ok (rs, c, s)) :
    ∀ r ∈ rs, 0 ≤ r.start ∧ r.start ≤ (N : Int) := by
  unfold sectionStep at h
  split at h
  · simp only [Except.ok.injEq, Prod.mk.injEq] at h
    obtain ⟨h1, -⟩ := h
    subst h1
    intro r hr
    simp at hr
  · split at h
    · cases hga : ImageAddress N (cci % 2 ^ 32) with
      | none => rw [hga] at h; exact absurd h (by simp)
      | some gapBase =>
        rw [hga] at h
        cases hba : ImageAddress N sec.pointerToRawData with
        | none => rw [hba] at h; exact absurd h (by simp)
        | some base =>
          rw [hba] at h
          obtain ⟨hgb, hgle⟩ := imageAddress_ok hga
          obtain ⟨hbb, hble⟩ := imageAddress_ok hba
          simp only [Except.ok.injEq, Prod.mk.injEq] at h
          obtain ⟨h1, -⟩ := h
          subst h1
          intro r hr
          simp only [List.mem_cons, List.not_mem_nil, or_false] at hr
          rcases hr with rfl | rfl
          · refine ⟨Int.natCast_nonneg _, ?_⟩
            show (gapBase : Int) ≤ (N : Int)
            exact_mod_cast by omega
          · refine ⟨Int.natCast_nonneg _, ?_⟩
            show (base : Int) ≤ (N : Int)
            exact_mod_cast by omega
    · cases hba : ImageAddress N sec.pointerToRawData with
      | none => rw [hba] at h; exact absurd h (by simp)
      | some base =>
        rw [hba] at h
        obtain ⟨hbb, hble⟩ := imageAddress_ok hba
        simp only [Except.ok.injEq, Prod.mk.injEq] at h
        obtain ⟨h1, -⟩ := h
        subst h1
        intro r hr
        simp only [List.mem_cons, List.not_mem_nil, or_false] at hr
        subst hr
        refine ⟨Int.natCast_nonneg _, ?_⟩
        show (base : Int) ≤ (N : Int)
        exact_mod_cast by omega

/-- Witness for the amended C1 theorem: the codecave run emitted for a
section at 100 after an indicator of 50 starts inside the image bound 600. -/
theorem sectionStep_start_validated_c1_witness :
    0 ≤ (⟨(50 : Int), 50⟩ : HashRun).start ∧
    (⟨(50 : Int), 50⟩ : HashRun).start ≤ ((600 : Nat) : Int) :=
  sectionStep_start_validated_c1 600 1 ⟨100, 10⟩ 50 0
    [⟨50, 50⟩, ⟨100, 10⟩] 110 60 (by decide) ⟨50, 50⟩ (by simp)

/-- C2 (amended): for a non-empty section the loop body emits a codecave run
(ahead of the section body run) exactly when PointerToRawData differs from
the running codecave indicator AND the section is not at position 0 of the
sorted order; the comparison is on inequality, not strict order, and the
first sorted section never gets a gap. -/
theorem sectionStep_gap_iff_c2 (N idx : Nat) (sec : SectionRec)
    (cci sum : Nat) (rs : List HashRun) (c s : Nat)
    (hne : sec.sizeOfRawData ≠ 0)
    (h : sectionStep N idx sec cci sum = .ok (rs, c, s)) :
    (∃ g, rs = [g, ⟨(sec.pointerToRawData : Int), sec.sizeOfRawData⟩] ∧
        g.start = ((cci % 2 ^ 32 : Nat) : Int) ∧
        g.len = (((sec.pointerToRawData : Int) - (cci : Int)).emod (2 ^ 64)).toNat)
      ↔ (sec.pointerToRawData ≠ cci ∧ 0 < idx) := by
  unfold sectionStep at h
  rw [if_neg hne] at h
  split at h
  · next hcond =>
    cases hga : ImageAddress N (cci % 2 ^ 32) with
    | none => rw [hga] at h; exact absurd h (by simp)
    | some gapBase =>
      rw [hga] at h
      cases hba : ImageAddress N sec.pointerToRawData with
      | none => rw [hba] at h; exact absurd h (by simp)
      | some base =>
        rw [hba] at h
        obtain ⟨hgb, -⟩ := imageAddress_ok hga
        obtain ⟨hbb, -⟩ := imageAddress_ok hba
        subst hgb hbb
        simp only [Except.ok.injEq, Prod.mk.injEq] at h
        obtain ⟨h1, -⟩ := h
        subst h1
        refine iff_of_true ⟨⟨((cci % 2 ^ 32 : Nat) : Int),
          (((sec.pointerToRawData : Int) - (cci : Int)).emod (2 ^ 64)).toNat⟩,
          rfl, rfl, rfl⟩ hcond
  · next hcond =>
    cases hba : ImageAddress N sec.pointerToRawData with
    | none => rw [hba] at h; exact absurd h (by simp)
    | some base =>
      rw [hba] at h
      obtain ⟨hbb, -⟩ := imageAddress_ok hba
      subst hbb
      simp only [Except.ok.injEq, Prod.mk.injEq] at h
      obtain ⟨h1, -⟩ := h
      subst h1
      refine iff_of_false ?_ hcond
      rintro ⟨g, hg, -, -⟩
      simp at hg

/-- Witness for the amended C2 theorem: a section at 100 with indicator 50 at
sorted position 1 satisfies the gap condition of the code. -/
theorem sectionStep_gap_iff_c2_witness :
    (⟨100, 10⟩ : SectionRec).pointerToRawData ≠ 50 ∧ 0 < 1 :=
  (sectionStep_gap_iff_c2 600 1 ⟨100, 10⟩ 50 0 [⟨50, 50⟩, ⟨100, 10⟩] 110 60
      (by decide) (by decide)).mp
    ⟨⟨(50 : Int), 50⟩, by decide, by decide, by decide⟩

/-- C3 (amended): across one non-empty section, SumOfBytesHashed advances
(mod 2 ^ 32) by the total length of every range streamed for that section:
the codecave gap length, when a gap is hashed, is added to SumOfBytesHashed
along with SizeOfRawData. -/
theorem sectionStep_sum_adds_all_runs_c3 (N idx : Nat) (sec : SectionRec)
    (cci sum : Nat) (rs : List HashRun) (c s : Nat)
    (hlt : sum < 2 ^ 32)
    (h : sectionStep N idx sec cci sum = .ok (rs, c, s)) :
    s = (sum + (rs.map HashRun.len).sum) % 2 ^ 32 := by
  unfold sectionStep at h
  split at h
  · simp only [Except.ok.injEq, Prod.mk.injEq] at h
    obtain ⟨h1, -, h3⟩ := h
    subst h1 h3
    simp only [List.map_nil, List.sum_nil, Nat.add_zero]
    omega
  · split at h
    · cases hga : ImageAddress N (cci % 2 ^ 32) with
      | none => rw [hga] at h; exact absurd h (by simp)
      | some gapBase =>
        rw [hga] at h
        cases hba : ImageAddress N sec.pointerToRawData with
        | none => rw [hba] at h; exact absurd h (by simp)
        | some base =>
          rw [hba] at h
          simp only [Except.ok.injEq, Prod.mk.injEq] at h
          obtain ⟨h1, -, h3⟩ := h
          subst h1 h3
          simp only [List.map_cons, List.map_nil, List.sum_cons, List.sum_nil]
          rw [Nat.mod_add_mod, Nat.add_zero, Nat.add_assoc]
    · cases hba : ImageAddress N sec.pointerToRawData with
      | none => rw [hba] at h; exact absurd h (by simp)
      | some base =>
        rw [hba] at h
        simp only [Except.ok.injEq, Prod.mk.injEq] at h
        obtain ⟨h1, -, h3⟩ := h
        subst h1 h3
        simp

/-- Witness for the amended C3 theorem at the concrete section step with a
40-byte codecave and a 20-byte section body. -/
theorem sectionStep_sum_adds_all_runs_c3_witness :
    (382 : Nat) =
      (322 + (([⟨110, 40⟩, ⟨150, 20⟩] : List HashRun).map HashRun.len).sum) % 2 ^ 32 :=
  sectionStep_sum_adds_all_runs_c3 600 1 ⟨150, 20⟩ 110 322
    [⟨110, 40⟩, ⟨150, 20⟩] 170 382 (by decide) (by decide)

/-- The bound chain the fat verifier actually enforces: every x86 or x86_64
arch begins at or after the running SizeOfBinary marker and lies inside the
image (other cpu types are not checked at all); every arch moves the marker
to its offset + size; the final marker equals the image size exactly. -/
def fatChainOK : List FatArch → Nat → Nat → Prop
  | [], sizeOfBinary, imageSize => sizeOfBinary = imageSize
  | a :: rest, sizeOfBinary, imageSize =>
    ((a.cpuType = CPU_TYPE_X86 ∨ a.cpuType = CPU_TYPE_X86_64) →
      sizeOfBinary ≤ a.offset ∧ a.offset < imageSize ∧ a.offset + a.size ≤ imageSize) ∧
    fatChainOK rest (a.offset + a.size) imageSize

/-- An accepting run of the arch loop satisfies the bound chain. -/
theorem fatLoop_zero_chain (sha : List Nat → List Nat)
    (rsa : Nat → List Nat → List Nat → Int) (table : List PkEntry)
    (image : List Nat) (N : Nat) :
    ∀ (archs : List FatArch) (sob : Nat),
      fatLoop sha rsa table image N archs sob = 0 → fatChainOK archs sob N := by
  intro archs
  induction archs with
  | nil =>
    intro sob h
    unfold fatLoop at h
    unfold fatChainOK
    split at h
    · exact absurd h (by decide)
    · next hne => exact not_not.mp hne
  | cons a rest ih =>
    intro sob h
    unfold fatLoop at h
    unfold fatChainOK
    split at h
    · split at h
      · exact absurd h (by decide)
      · split at h
        · exact absurd h (by decide)
        · next hbounds _ =>
          refine ⟨fun _ => ?_, ih _ h⟩
          push_neg at hbounds
          omega
    · next hncpu => exact ⟨fun hcpu => absurd hcpu hncpu, ih _ h⟩

/-- C4 (amended): every fat container the top-level verifier accepts has its
arch regions chained within bounds as the code checks them: the last region
ends exactly at image_size, and each x86/x86_64 slice starts at or after the
end of the previous region and lies within the image; contiguity is not
required and non-x86 regions are not bounds checked, so the slices need not
tile the container (the counterexample exhibits an accepted gap). -/
theorem fat_accept_chain_c4 (sha : List Nat → List Nat)
    (rsa : Nat → List Nat → List Nat → Int) (table : List PkEntry)
    (image : List Nat) (N : Nat)
    (hsz : 8 ≤ N) (hmagic : readLE image 0 4 = EFI_FAT_MAGIC)
    (hacc : VerifyAppleImageSignature sha rsa table image N = 0) :
    fatChainOK (archsOf image (readLE image 4 4)) (8 + 20 * readLE image 4 4) N := by
  unfold VerifyAppleImageSignature at hacc
  rw [if_neg (by omega)] at hacc
  rw [if_neg (by simp [hmagic])] at hacc
  split at hacc
  · exact absurd hacc (by decide)
  · exact fatLoop_zero_chain sha rsa table image N _ _ hacc

/-- Witness for the amended C4 theorem at the accepting zero-arch fat
container of exactly the header size. -/
theorem fat_accept_chain_c4_witness :
    (8 : Nat) ≤ 8 ∧ readLE imgFat0 0 4 = EFI_FAT_MAGIC ∧
    fatChainOK (archsOf imgFat0 (readLE imgFat0 4 4)) (8 + 20 * readLE imgFat0 4 4) 8 :=
  ⟨by decide, by decide,
    fat_accept_chain_c4 shaC rsaC [] imgFat0 8 (by decide) (by decide) (by decide)⟩

/-- The database scan of the source rewrites Pk on every hit, so appending an
entry makes it win whenever its hash matches, and the previous table decides
the result otherwise. -/
theorem lookupPk_concat (table : List PkEntry) (e : PkEntry) (h : List Nat) :
    lookupPk (table ++ [e]) h =
      if e.hash = h then some e.publicKey else lookupPk table h := by
  unfold lookupPk
  rw [List.foldl_append]
  rfl

/-- If the scan with some accumulator yields a key, either the accumulator
already held it or some entry hash equals the probe. -/
theorem foldl_lookup_mem (h : List Nat) :
    ∀ (table : List PkEntry) (acc : Option Nat) (k : Nat),
      table.foldl (fun acc e => if e.hash = h then some e.publicKey else acc) acc = some k →
      acc = some k ∨ h ∈ table.map PkEntry.hash := by
  intro table
  induction table with
  | nil => intro acc k hk; exact Or.inl hk
  | cons e rest ih =>
    intro acc k hk
    simp only [List.foldl_cons] at hk
    rcases ih _ _ hk with hacc | hmem
    · by_cases he : e.hash = h
      · exact Or.inr (by simp [he])
      · rw [if_neg he] at hacc
        exact Or.inl hacc
    · exact Or.inr (by simp [hmem])

/-- A successful lookup means the probe hash occurs in the table. -/
theorem lookupPk_some_mem {table : List PkEntry} {h : List Nat} {k : Nat}
    (hk : lookupPk table h = some k) : h ∈ table.map PkEntry.hash := by
  rcases foldl_lookup_mem h table none k hk with hacc | hmem
  · exact absurd hacc (by simp)
  · exact hmem

/-- Monotonicity of the key stage under a fresh-hash extension. -/
theorem keyStage_fresh (rsa : Nat → List Nat → List Nat → Int)
    (table : List PkEntry) (e : PkEntry) (pkHash sigBe digest : List Nat)
    (hfresh : e.hash ∉ table.map PkEntry.hash) :
    ((keyStage rsa table pkHash sigBe digest).toInt = 0 →
      (keyStage rsa (table ++ [e]) pkHash sigBe digest).toInt = 0) ∧
    ((keyStage rsa (table ++ [e]) pkHash sigBe digest).toInt ≠
        (keyStage rsa table pkHash sigBe digest).toInt →
      keyStage rsa table pkHash sigBe digest = .unknownKey ∧
      (keyStage rsa (table ++ [e]) pkHash sigBe digest).toInt = 0) := by
  by_cases hhash : e.hash = pkHash
  · cases hl : lookupPk table pkHash with
    | some k =>
      have : pkHash ∈ table.map PkEntry.hash := lookupPk_some_mem hl
      exact absurd (hhash ▸ this) hfresh
    | none =>
      have hnew : lookupPk (table ++ [e]) pkHash = some e.publicKey := by
        rw [lookupPk_concat, if_pos hhash]
      by_cases hr : rsa e.publicKey sigBe digest = 1
      · simp [keyStage, hl, hnew, hr, VerifyResult.toInt]
      · simp [keyStage, hl, hnew, hr, VerifyResult.toInt]
  · have hsame : lookupPk (table ++ [e]) pkHash = lookupPk table pkHash := by
      rw [lookupPk_concat, if_neg hhash]
    unfold keyStage
    rw [hsame]
    exact ⟨fun h0 => h0, fun hbad => absurd rfl hbad⟩

/-- C9 (amended): provided the added entry carries a hash different from
every hash already in the table, extending the trusted-key table can only
turn a reject into an accept, and a reject it turns is always the
unknown-key reject; an accept can never become a reject.  (With a duplicated
hash the claim fails, as the counterexample shows, because the last matching
entry wins the scan.) -/
theorem monotone_trust_fresh_hash_c9 (sha : List Nat → List Nat)
    (rsa : Nat → List Nat → List Nat → Int) (image : List Nat) (N : Nat)
    (table : List PkEntry) (e : PkEntry)
    (hfresh : e.hash ∉ table.map PkEntry.hash) :
    ((VerifyApplePeImageSignature sha rsa table image N).toInt = 0 →
      (VerifyApplePeImageSignature sha rsa (table ++ [e]) image N).toInt = 0) ∧
    ((VerifyApplePeImageSignature sha rsa (table ++ [e]) image N).toInt ≠
        (VerifyApplePeImageSignature sha rsa table image N).toInt →
      VerifyApplePeImageSignature sha rsa table image N = .unknownKey ∧
      (VerifyApplePeImageSignature sha rsa (table ++ [e]) image N).toInt = 0) := by
  unfold VerifyApplePeImageSignature
  cases hp : GetPeHeader image N with
  | error err =>
    exact ⟨fun h0 => h0, fun hbad => absurd rfl hbad⟩
  | ok ctx =>
    simp only [GetApplePeImageSignature]
    cases hh : GetApplePeImageSha256 image N ctx with
    | error err =>
      exact ⟨fun h0 => h0, fun hbad => absurd rfl hbad⟩
    | ok pr =>
      exact keyStage_fresh rsa table e _ _ _ hfresh

/-- Witness for the amended C9 theorem: extending the accepting table of the
concrete run with a fresh-hash entry keeps the verdict 0. -/
theorem monotone_trust_fresh_hash_c9_witness :
    (VerifyApplePeImageSignature shaC rsaC ([⟨[7], 1⟩] ++ [⟨[9], 3⟩]) imgOK 500).toInt = 0 :=
  (monotone_trust_fresh_hash_c9 shaC rsaC imgOK 500 [⟨[7], 1⟩] ⟨[9], 3⟩ (by decide)).1
    (by decide)

/-- C8: once the pipeline of VerifyApplePeImageSignature has parsed the
context, extracted the key material and computed the hash transcript (the
stages run in that fixed order by construction), a key hash that matches no
table entry yields the unknownKey failure for every RSA oracle (so RSA verify
is never consulted), and a matching entry makes the overall verdict Ok
exactly when the RSA oracle returns 1 on the selected key, the big-endian
signature and the digest of the transcript bytes. -/
theorem verifyPe_lookup_rsa_c8 (sha : List Nat → List Nat)
    (rsa : Nat → List Nat → List Nat → Int) (table : List PkEntry)
    (image : List Nat) (N : Nat) (ctx : PeCoffContext)
    (pkLe pkBe sigLe sigBe : List Nat) (runs : List HashRun) (fsum : Nat)
    (hp : GetPeHeader image N = .ok ctx)
    (hx : GetApplePeImageSignature image ctx = .ok (pkLe, pkBe, sigLe, sigBe))
    (hh : GetApplePeImageSha256 image N ctx = .ok (runs, fsum)) :
    (lookupPk table (sha pkLe) = none →
      VerifyApplePeImageSignature sha rsa table image N = .unknownKey) ∧
    (∀ k, lookupPk table (sha pkLe) = some k →
      (VerifyApplePeImageSignature sha rsa table image N = .ok ↔
        rsa k sigBe (sha (runsBytes image runs)) = 1)) := by
  constructor
  · intro hnone
    simp only [VerifyApplePeImageSignature, hp, hx, hh, keyStage, hnone]
  · intro k hk
    simp only [VerifyApplePeImageSignature, hp, hx, hh, keyStage, hk]
    constructor
    · intro hok
      by_contra hne
      rw [if_neg hne] at hok
      exact absurd hok (by decide)
    · intro h1
      rw [if_pos h1]

/-- The hash transcript of imgOK. -/
def runsOK : List HashRun :=
  [⟨0, 64⟩, ⟨64, 88⟩, ⟨156, 60⟩, ⟨224, 88⟩, ⟨216, 8⟩, ⟨328, 172⟩]

/-- Witness for the C8 theorem: on the concrete image, with the table entry
of hash [7] and key material 1, acceptance is equivalent to the RSA oracle
returning 1 on that key. -/
theorem verifyPe_lookup_rsa_c8_witness :
    VerifyApplePeImageSignature shaC rsaC [⟨[7], 1⟩] imgOK 500 = .ok ↔
      rsaC 1 (List.replicate 256 0) (shaC (runsBytes imgOK runsOK)) = 1 :=
  (verifyPe_lookup_rsa_c8 shaC rsaC [⟨[7], 1⟩] imgOK 500 ctxOK
      (List.replicate 256 0) (List.replicate 256 0)
      (List.replicate 256 0) (List.replicate 256 0)
      runsOK 328 (by decide) (by decide) (by decide)).2 1 (by decide)
